import Mathlib

/-!
# Verification of the NNC-Android media-sync engine

Shallow embedding of the camera/folder media-sync engine from the settings
screen (path/name utilities, upload status resolver, chunked upload executor,
mirror pruner), with theorems settling the specification claims.

JavaScript strings are modelled as `List Char` (with `String` wrappers keeping
the source names), JavaScript numbers as `Int` (or `Nat` where the source value
is a length/count), and server responses as explicit oracle values.
-/

namespace NNCSync

set_option maxRecDepth 4000

/-! ## Character-list helpers with JavaScript semantics -/

/-- JavaScript `Array.prototype.join(sep)` semantics on character lists:
`[] → ""`, singleton → itself, otherwise interleave a single separator. -/
def joinWithChar (sep : Char) : List (List Char) → List Char
  | [] => []
  | [s] => s
  | s :: rest => s ++ sep :: joinWithChar sep rest

/-- JavaScript `String.prototype.split(sep)` semantics on character lists:
`"" → [""]`, adjacent separators produce empty pieces. -/
def splitOnChar (sep : Char) : List Char → List (List Char)
  | [] => [[]]
  | c :: rest =>
    let r := splitOnChar sep rest
    if c = sep then [] :: r else
      match r with
      | [] => [[c]]
      | s :: ss => (c :: s) :: ss

/-- `split` never returns an empty list of pieces. -/
theorem splitOnChar_ne_nil (sep : Char) (l : List Char) : splitOnChar sep l ≠ [] := by
  cases l with
  | nil => simp [splitOnChar]
  | cons c rest =>
    simp only [splitOnChar]
    split
    · simp
    · split <;> simp

theorem joinWithChar_cons_cons (sep : Char) (s t : List Char) (ts : List (List Char)) :
    joinWithChar sep (s :: t :: ts) = s ++ sep :: joinWithChar sep (t :: ts) := rfl

/-- Joining the pieces of a split recovers the original list. -/
theorem joinWithChar_splitOnChar (sep : Char) (l : List Char) :
    joinWithChar sep (splitOnChar sep l) = l := by
  induction l with
  | nil => rfl
  | cons c rest ih =>
    by_cases hc : c = sep
    · simp only [splitOnChar, if_pos hc]
      cases hr : splitOnChar sep rest with
      | nil => exact absurd hr (splitOnChar_ne_nil sep rest)
      | cons s ss =>
        rw [hr] at ih
        calc joinWithChar sep ([] :: s :: ss) = sep :: joinWithChar sep (s :: ss) := rfl
        _ = sep :: rest := by rw [ih]
        _ = c :: rest := by rw [hc]
    · simp only [splitOnChar, if_neg hc]
      cases hr : splitOnChar sep rest with
      | nil => exact absurd hr (splitOnChar_ne_nil sep rest)
      | cons s ss =>
        rw [hr] at ih
        cases ss with
        | nil => simpa [joinWithChar] using congrArg (c :: ·) ih
        | cons t ts =>
          calc joinWithChar sep ((c :: s) :: t :: ts)
              = c :: joinWithChar sep (s :: t :: ts) := rfl
          _ = c :: rest := by rw [ih]

/-- Appending one more piece to a join: a separator is interposed whenever the
earlier piece list is nonempty. -/
theorem joinWithChar_append_singleton (sep : Char) (xs : List (List Char)) (x : List Char) :
    joinWithChar sep (xs ++ [x]) =
      if xs = [] then x else joinWithChar sep xs ++ sep :: x := by
  induction xs with
  | nil => rfl
  | cons s ss ih =>
    cases ss with
    | nil => rfl
    | cons t ts =>
      have h1 : joinWithChar sep ((s :: t :: ts) ++ [x])
          = s ++ sep :: joinWithChar sep ((t :: ts) ++ [x]) := rfl
      rw [h1, ih]
      simp [joinWithChar_cons_cons, List.append_assoc]

/-- JavaScript `String.prototype.trim()` (approximated by Lean whitespace). -/
def jsTrim (l : List Char) : List Char :=
  ((l.dropWhile Char.isWhitespace).reverse.dropWhile Char.isWhitespace).reverse

/-! ## Path/name utilities (translated from the settings screen source) -/

/-- `normalizeUploadPath`: backslashes to slashes, then strip leading and
trailing slashes. -/
def normalizeUploadPathL (l : List Char) : List Char :=
  let slashed := l.map (fun c => if c = '\\' then '/' else c)
  ((slashed.dropWhile (fun c => c = '/')).reverse.dropWhile (fun c => c = '/')).reverse

/-- One part's contribution to `joinUploadPath`: normalize, split on `/`,
drop empty and `.` segments. -/
def segmentsOfPart (part : List Char) : List (List Char) :=
  let normalized := normalizeUploadPathL part
  if normalized = [] then []
  else (splitOnChar '/' normalized).filter (fun seg => decide (seg ≠ [] ∧ seg ≠ ['.']))

def collectSegments : List (List Char) → List (List Char)
  | [] => []
  | part :: rest => segmentsOfPart part ++ collectSegments rest

/-- `joinUploadPath(...parts)`: collect the kept segments of every part and
join them with `/`. -/
def joinUploadPathL (parts : List (List Char)) : List Char :=
  joinWithChar '/' (collectSegments parts)

/-- The characters the sanitizer's character class `[\\/:*?"<>|]` matches. -/
def isUnsafeChar (c : Char) : Bool :=
  c == '\\' || c == '/' || c == ':' || c == '*' || c == '?' ||
    c == '"' || c == '<' || c == '>' || c == '|'

/-- `replace(/[\\/:*?"<>|]+/g, '_')`: each maximal run of unsafe characters
becomes a single underscore.  The flag records whether the previous character
was part of an unsafe run. -/
def collapseUnsafe : Bool → List Char → List Char
  | _, [] => []
  | prevUnsafe, c :: rest =>
    if isUnsafeChar c then
      (if prevUnsafe then [] else ['_']) ++ collapseUnsafe true rest
    else c :: collapseUnsafe false rest

/-- `sanitizeFileName(name, fallbackId)` from the source: trim, collapse unsafe
runs to `_`, and fall back to `fallbackId + ".jpg"` when empty. -/
def sanitizeFileNameL (name fallbackId : List Char) : List Char :=
  if collapseUnsafe false (jsTrim name) ≠ [] then collapseUnsafe false (jsTrim name)
  else fallbackId ++ ".jpg".data

/-- Index of the last `.` in a character list (JavaScript `lastIndexOf('.')`,
with `none` standing for `-1`). -/
def lastDotIdx : List Char → Option Nat
  | [] => none
  | c :: rest =>
    match lastDotIdx rest with
    | some i => some (i + 1)
    | none => if c = '.' then some 0 else none

/-- `splitNameAndExt`: split at the last dot, but treat a file name whose only
dot is its first character (or with no dot at all) as having no extension. -/
def splitNameAndExtL (raw : List Char) : List Char × List Char :=
  match lastDotIdx raw with
  | none => (raw, [])
  | some i => if i = 0 then (raw, []) else (raw.take i, raw.drop i)

/-- `addConflictSuffix(fileName, attempt)`: for `attempt ≤ 0` return the name
unchanged, otherwise insert `" (attempt)"` before the extension. -/
def addConflictSuffixL (fileName : List Char) (attempt : Int) : List Char :=
  if attempt ≤ 0 then fileName
  else
    let p := splitNameAndExtL fileName
    p.1 ++ " (".data ++ (toString attempt).data ++ ")".data ++ p.2

/-- `renameRemoteTarget(remoteTarget, attempt)`: suffix the last path segment
of the normalized target. -/
def renameRemoteTargetL (remoteTarget : List Char) (attempt : Int) : List Char :=
  let normalized := normalizeUploadPathL remoteTarget
  if normalized = [] then normalized
  else
    let parts := splitOnChar '/' normalized
    let fileName := parts.getLast?.getD []
    let rest := parts.dropLast
    let nextName := addConflictSuffixL fileName attempt
    if rest ≠ [] then joinWithChar '/' rest ++ '/' :: nextName else nextName

/-! ### String wrappers keeping the source names -/

def normalizeUploadPath (value : String) : String :=
  ⟨normalizeUploadPathL value.data⟩

def joinUploadPath (parts : List String) : String :=
  ⟨joinUploadPathL (parts.map String.data)⟩

def sanitizeFileName (name fallbackId : String) : String :=
  ⟨sanitizeFileNameL name.data fallbackId.data⟩

def splitNameAndExt (fileName : String) : String × String :=
  (⟨(splitNameAndExtL fileName.data).1⟩, ⟨(splitNameAndExtL fileName.data).2⟩)

def addConflictSuffix (fileName : String) (attempt : Int) : String :=
  ⟨addConflictSuffixL fileName.data attempt⟩

def renameRemoteTarget (remoteTarget : String) (attempt : Int) : String :=
  ⟨renameRemoteTargetL remoteTarget.data attempt⟩

/-! ## Data model -/

inductive SyncSource where
  | camera
  | folder
deriving DecidableEq, Repr

inductive SyncConflictPolicy where
  | skip
  | overwrite
  | rename
deriving DecidableEq, Repr

structure UploadCandidate where
  kind : SyncSource
  displayName : String
  localUri : String
  size : Int
  initialOffset : Int
  remoteTarget : String
  monthBucket : String
  capturedAtIso : String
  overwrite : Bool
deriving DecidableEq, Repr

structure LocalFolderFile where
  localUri : String
  relativePath : String
  displayName : String
  size : Int
deriving DecidableEq, Repr

/-- `renameCandidateForAttempt`: camera candidates rename `displayName`, folder
candidates rename the last segment of `remoteTarget`; both clear `overwrite`. -/
def renameCandidateForAttempt (candidate : UploadCandidate) (attempt : Int) : UploadCandidate :=
  if attempt ≤ 0 then candidate
  else
    match candidate.kind with
    | .camera =>
      { candidate with
        displayName := addConflictSuffix candidate.displayName attempt
        overwrite := false }
    | .folder =>
      let nextTarget := renameRemoteTarget candidate.remoteTarget attempt
      { candidate with
        remoteTarget := nextTarget
        displayName := nextTarget
        overwrite := false }

/-- `buildFolderCandidates`: one folder-kind candidate per discovered file,
with `remoteTarget = joinUploadPath(uploadBasePath, relativePath)`. -/
def buildFolderCandidates (files : List LocalFolderFile) (uploadBasePath : String) :
    List UploadCandidate :=
  files.map fun file =>
    { kind := .folder
      displayName := file.relativePath
      localUri := file.localUri
      size := file.size
      initialOffset := 0
      remoteTarget := joinUploadPath [uploadBasePath, file.relativePath]
      monthBucket := ""
      capturedAtIso := ""
      overwrite := false }

/-! ## Upload status resolver -/

/-- One entry of a batch-status response, as read by the resolver.  A missing
or non-integer `index` field is modelled as `none`; the absent/falsy string
fields are modelled as `""` and an absent numeric `offset` as `0`, matching the
source's `x || fallback` reads. -/
structure StatusItem where
  index : Option Int
  status : String
  ok : Bool
  errorCode : String
  offset : Int
deriving DecidableEq, Repr

/-- `String(statusItem?.status || (statusItem?.ok ? 'ready' : statusItem?.error?.code || 'error'))` -/
def statusItemUploadStatus (it : StatusItem) : String :=
  if it.status ≠ "" then it.status
  else if it.ok then "ready"
  else if it.errorCode ≠ "" then it.errorCode
  else "error"

/-- `Math.max(0, Number(statusItem?.offset || 0))` -/
def statusItemOffset (it : StatusItem) : Int :=
  max 0 it.offset

def STATUS_BATCH_SIZE : Nat := 60
def MAX_RENAME_ATTEMPTS : Nat := 50

/-- `normalizeBatchStatusItems(rawItems, expected)`: start from `expected`
nulls and place every entry whose integer `index` lies in `[0, expected)` at
that index (later entries overwrite earlier ones); a non-array response
(`none`) leaves every slot null. -/
def statusFoldStep (expected : Nat) (byIndex : List (Option StatusItem))
    (entry : StatusItem) : List (Option StatusItem) :=
  match entry.index with
  | some i => if 0 ≤ i ∧ i < (expected : Int) then byIndex.set i.toNat (some entry) else byIndex
  | none => byIndex

def normalizeBatchStatusItems (rawItems : Option (List StatusItem)) (expected : Nat) :
    List (Option StatusItem) :=
  match rawItems with
  | none => List.replicate expected none
  | some items => items.foldl (statusFoldStep expected) (List.replicate expected none)

/-- Result of the single-item status probe issued during rename resolution:
either an API error carrying an error code, or a payload with status string
(absent modelled `""`, defaulted to `"ready"` by the caller) and offset. -/
inductive ProbeResult where
  | fail (errorCode : String)
  | ok (status : String) (offset : Int)
deriving DecidableEq, Repr

inductive RenameOutcome where
  | failed
  | skipped
  | ready (candidate : UploadCandidate) (offset : Int)
deriving DecidableEq, Repr

/-- The rename-probe loop body of `resolveRenameCandidate`, probing attempts
`attempt, attempt+1, ...` while fuel lasts; running out of fuel is the
source loop's exhaustion of `MAX_RENAME_ATTEMPTS` (which marks the candidate
failed).  The run's cancellation flag is modelled as never set: a cancelled
loop exits the same way as an exhausted one. -/
def resolveRenameFrom (candidate : UploadCandidate) (probe : Nat → ProbeResult) :
    Nat → Nat → RenameOutcome
  | 0, _ => .failed
  | fuel + 1, attempt =>
    let renamed := renameCandidateForAttempt candidate (attempt : Int)
    match probe attempt with
    | .fail code =>
      if code = "exists" then resolveRenameFrom candidate probe fuel (attempt + 1)
      else .failed
    | .ok status offset0 =>
      let uploadStatus := if status ≠ "" then status else "ready"
      let offset := max 0 offset0
      if uploadStatus = "complete" ∨ offset ≥ renamed.size then .skipped
      else .ready renamed offset

/-- `resolveRenameCandidate`: probe attempts `1..MAX_RENAME_ATTEMPTS`. -/
def resolveRenameCandidate (candidate : UploadCandidate) (probe : Nat → ProbeResult) :
    RenameOutcome :=
  resolveRenameFrom candidate probe MAX_RENAME_ATTEMPTS 1

/-- `addReadyCandidate(candidate, rawOffset, overwrite)`: clamp the offset into
`[0, size]`, record it with the overwrite flag on the candidate, and return the
planned-bytes contribution `max(0, size - offset)`. -/
def addReadyCandidate (candidate : UploadCandidate) (rawOffset : Int) (overwrite : Bool) :
    UploadCandidate × Int :=
  let offset := max 0 (min rawOffset candidate.size)
  ({ candidate with initialOffset := offset, overwrite := overwrite },
    max 0 (candidate.size - offset))

inductive CandidateResolution where
  | planned (candidate : UploadCandidate) (bytes : Int)
  | skipped
  | failed
deriving DecidableEq, Repr

/-- The per-candidate classification of `applyStatusBatch` (the body of its
`for` loop), applied to the slot `normalizeBatchStatusItems` produced for this
candidate.  `policy` is the run's effective conflict policy; the batch request
was sent with `overwrite = (policy = overwrite)`.  `probe` is the oracle for
the rename-resolution status requests. -/
def classifyStatusItem (policy : SyncConflictPolicy) (candidate : UploadCandidate)
    (item : Option StatusItem) (probe : Nat → ProbeResult) : CandidateResolution :=
  match item with
  | none => .failed
  | some it =>
    let uploadStatus := statusItemUploadStatus it
    let offset := statusItemOffset it
    if uploadStatus = "ready" then
      let p := addReadyCandidate candidate offset (decide (policy = .overwrite))
      .planned p.1 p.2
    else if uploadStatus = "complete" ∨ offset ≥ candidate.size then .skipped
    else if uploadStatus = "exists" then
      match policy with
      | .skip => .skipped
      | .overwrite => .failed
      | .rename =>
        match resolveRenameCandidate candidate probe with
        | .ready c off =>
          let p := addReadyCandidate c off false
          .planned p.1 p.2
        | .skipped => .skipped
        | .failed => .failed
    else .failed

/-- The policy coercion at the start of `runSync`: folder source with mirror
mode and a requested rename policy is coerced to overwrite. -/
def effectiveConflictPolicy (syncSource : SyncSource) (mirrorRemote : Bool)
    (conflictPolicy : SyncConflictPolicy) : SyncConflictPolicy :=
  if syncSource = .folder ∧ mirrorRemote = true ∧ conflictPolicy = .rename then .overwrite
  else conflictPolicy

/-- `overwriteUploads = effectiveConflictPolicy === 'overwrite'` -/
def overwriteUploads (policy : SyncConflictPolicy) : Bool :=
  decide (policy = .overwrite)

/-! ## Chunked upload executor -/

def MIN_CHUNK_BYTES : Int := 256 * 1024
def MAX_CHUNK_BYTES : Int := 2 * 1024 * 1024

/-- Server response to one chunk POST: success carrying `data.offset`
(absent modelled `0`, per `Number(x || 0)`); an `offset_mismatch` error
followed by the recovery status request (`statusOk` false models a failed
status request, otherwise `statusOffset` is its `data.offset`); or any other
error. -/
inductive ChunkResp where
  | ok (dataOffset : Int)
  | mismatch (statusOk : Bool) (statusOffset : Int)
  | errOther
deriving DecidableEq, Repr

inductive ChunkStepResult where
  | advanced (nextOffset : Int)
  | thrown
deriving DecidableEq, Repr

/-- One iteration of the chunk-upload `while` loop, entered with the local
`offset` (< size).  `reads offset want` is the number of bytes
`handle.readBytes` yields at this position for a requested count `want`.
An empty read, a failed recovery status request, a non-advancing recovery
offset, and any non-mismatch chunk error all `throw`. -/
def uploadChunkStep (size chunkBytes : Int) (reads : Int → Int → Nat)
    (resp : ChunkResp) (offset : Int) : ChunkStepResult :=
  let want := min chunkBytes (size - offset)
  let len : Nat := reads offset want
  if len = 0 then .thrown
  else
    match resp with
    | .ok dataOffset => .advanced (max (offset + (len : Int)) dataOffset)
    | .mismatch statusOk statusOffset =>
      if statusOk then
        let serverOffset := max 0 statusOffset
        if serverOffset ≤ offset then .thrown else .advanced serverOffset
      else .thrown
    | .errOther => .thrown

inductive UploadLoopResult where
  | done (finalOffset : Int)
  | thrown
  | fuelOut
deriving DecidableEq, Repr

/-- The chunk-upload `while (offset < candidate.size)` loop; `resps step` is
the server's response to the `step`-th chunk POST of this candidate.  `fuelOut`
is an artifact of the bounded model, never an outcome of the source loop. -/
def uploadChunkLoopFrom (size chunkBytes : Int) (reads : Int → Int → Nat)
    (resps : Nat → ChunkResp) : Nat → Int → Nat → UploadLoopResult
  | 0, _, _ => .fuelOut
  | fuel + 1, offset, step =>
    if offset < size then
      match uploadChunkStep size chunkBytes reads (resps step) offset with
      | .advanced next => uploadChunkLoopFrom size chunkBytes reads resps fuel next (step + 1)
      | .thrown => .thrown
    else .done offset

/-- Uploading one candidate: the loop starts from the candidate's resume
offset clamped into `[0, size]` (`Math.max(0, Math.min(initialOffset, size))`). -/
def runCandidateUpload (chunkBytes : Int) (candidate : UploadCandidate)
    (reads : Int → Int → Nat) (resps : Nat → ChunkResp) (fuel : Nat) : UploadLoopResult :=
  uploadChunkLoopFrom candidate.size chunkBytes reads resps fuel
    (max 0 (min candidate.initialOffset candidate.size)) 0

/-- One candidate together with its local-read and server-response oracles. -/
structure CandidateRun where
  candidate : UploadCandidate
  reads : Int → Int → Nat
  resps : Nat → ChunkResp

inductive UploadStageResult where
  | finished (uploaded : Nat) (failed : Nat)
  | errored (uploaded : Nat) (failed : Nat)
  | fuelOut
deriving DecidableEq, Repr

/-- The uploading stage of `runSync` (its `for (const candidate of candidates)`
loop together with the run-level `catch`): candidates are processed in order;
a completed loop increments `uploaded` when the final offset reached `size`;
a thrown chunk error ends the whole run in the `error` stage with the counters
as they stand.  The `failed` counter is threaded through untouched because the
upload stage never increments it. -/
def runUploadStage (chunkBytes : Int) (fuel : Nat) :
    List CandidateRun → Nat → Nat → UploadStageResult
  | [], uploaded, failed => .finished uploaded failed
  | r :: rest, uploaded, failed =>
    match runCandidateUpload chunkBytes r.candidate r.reads r.resps fuel with
    | .done finalOffset =>
      runUploadStage chunkBytes fuel rest
        (if finalOffset ≥ r.candidate.size then uploaded + 1 else uploaded) failed
    | .thrown => .errored uploaded failed
    | .fuelOut => .fuelOut

/-! ## Mirror pruner -/

/-- The local-target set built during folder planning: the `remoteTarget` of
every discovered candidate, added before its status batch is resolved. -/
def localMirrorTargets (folderCandidates : List UploadCandidate) : List String :=
  folderCandidates.map (fun c => c.remoteTarget)

/-- The mirror deletion set: remote paths not among the local targets
(`Array.from(remoteFiles).filter((p) => !localMirrorTargets.has(p))`). -/
def mirrorDeleteSet (remoteFiles : List String) (localTargets : List String) : List String :=
  remoteFiles.filter (fun p => decide (p ∉ localTargets))

/-! ## Helper lemmas about the name utilities -/

theorem splitNameAndExtL_append (l : List Char) :
    (splitNameAndExtL l).1 ++ (splitNameAndExtL l).2 = l := by
  unfold splitNameAndExtL
  cases h : lastDotIdx l with
  | none => simp
  | some i =>
    by_cases hi : i = 0
    · simp [hi]
    · simp [hi, List.take_append_drop]

theorem lastDotIdx_eq_none (l : List Char) (h : lastDotIdx l = none) :
    ∀ j : Nat, l[j]? ≠ some '.' := by
  induction l with
  | nil => intro j; simp
  | cons c rest ih =>
    intro j
    simp only [lastDotIdx] at h
    cases hk : lastDotIdx rest with
    | some k => rw [hk] at h; exact absurd h (by simp)
    | none =>
      rw [hk] at h
      have hc : c ≠ '.' := by
        intro hc; rw [if_pos hc] at h; exact absurd h (by simp)
      cases j with
      | zero => simpa using hc
      | succ j => simpa using ih hk j

theorem lastDotIdx_spec (l : List Char) (i : Nat) (h : lastDotIdx l = some i) :
    l[i]? = some '.' ∧ ∀ j : Nat, i < j → l[j]? ≠ some '.' := by
  induction l generalizing i with
  | nil => exact absurd h (by simp [lastDotIdx])
  | cons c rest ih =>
    simp only [lastDotIdx] at h
    cases hk : lastDotIdx rest with
    | some k =>
      rw [hk] at h
      have hi : i = k + 1 := by simpa using h.symm
      subst hi
      obtain ⟨h1, h2⟩ := ih k hk
      refine ⟨by simpa using h1, ?_⟩
      intro j hj
      cases j with
      | zero => omega
      | succ j => simpa using h2 j (by omega)
    | none =>
      rw [hk] at h
      have hc : c = '.' := by
        by_contra hc
        rw [if_neg hc] at h
        exact absurd h (by simp)
      have hi : i = 0 := by
        rw [if_pos hc] at h
        simpa using h.symm
      subst hi
      refine ⟨by simpa using hc, ?_⟩
      intro j hj
      cases j with
      | zero => omega
      | succ j => simpa using lastDotIdx_eq_none rest hk j

theorem splitNameAndExtL_eq_of_none (l : List Char) (h : lastDotIdx l = none) :
    splitNameAndExtL l = (l, []) := by
  unfold splitNameAndExtL
  rw [h]

theorem splitNameAndExtL_eq_of_zero (l : List Char) (h : lastDotIdx l = some 0) :
    splitNameAndExtL l = (l, []) := by
  unfold splitNameAndExtL
  rw [h]
  simp

theorem splitNameAndExtL_eq_of_pos (l : List Char) (i : Nat) (h : lastDotIdx l = some i)
    (hi : i ≠ 0) : splitNameAndExtL l = (l.take i, l.drop i) := by
  unfold splitNameAndExtL
  rw [h]
  show (if i = 0 then (l, []) else (l.take i, l.drop i)) = _
  rw [if_neg hi]

theorem addConflictSuffixL_length (f : List Char) (a : Int) (ha : ¬ a ≤ 0) :
    (addConflictSuffixL f a).length = f.length + (toString a).data.length + 3 := by
  unfold addConflictSuffixL
  rw [if_neg ha]
  have h := congrArg List.length (splitNameAndExtL_append f)
  simp only [List.length_append] at h ⊢
  simp only [show " (".data.length = 2 from rfl, show ")".data.length = 1 from rfl]
  omega

theorem collapseUnsafe_safe (l : List Char) (b : Bool) :
    ∀ c ∈ collapseUnsafe b l, isUnsafeChar c = false := by
  induction l generalizing b with
  | nil => intro c hc; exact absurd hc (by simp [collapseUnsafe])
  | cons c rest ih =>
    intro x hx
    simp only [collapseUnsafe] at hx
    by_cases hc : isUnsafeChar c
    · rw [if_pos hc] at hx
      cases b with
      | true => simpa using ih true x (by simpa using hx)
      | false =>
        rcases List.mem_cons.mp (by simpa using hx) with h | h
        · subst h; decide
        · exact ih true x h
    · rw [if_neg hc] at hx
      rcases List.mem_cons.mp hx with h | h
      · subst h; simpa using hc
      · exact ih false x h

theorem jpgExt_safe : ∀ c ∈ ".jpg".data, isUnsafeChar c = false := by decide

theorem sanitizeFileNameL_ne_nil (name fid : List Char) :
    sanitizeFileNameL name fid ≠ [] := by
  unfold sanitizeFileNameL
  by_cases h : collapseUnsafe false (jsTrim name) = []
  · rw [if_neg (by simpa using h)]
    intro hx
    rcases List.append_eq_nil.mp hx with ⟨-, h2⟩
    exact absurd h2 (by decide)
  · rw [if_pos (by simpa using h)]
    exact h

/-! ## Claim C10 -/

/-- Claim C10 (confirmed): `joinUploadPath` drops only empty and `.` segments,
so `..` segments survive verbatim and a folder candidate's `remoteTarget` can
contain parent-directory segments. -/
theorem joinUploadPath_preserves_dotdot :
    joinUploadPath ["a", ".."] = "a/.." ∧
    joinUploadPath ["a/", "/b//c", ".", ""] = "a/b/c" ∧
    joinUploadPath ["photos", "../secret.txt"] = "photos/../secret.txt" ∧
    (buildFolderCandidates [⟨"file:///u", "../x", "../x", 1⟩] "base").map
      (fun c => c.remoteTarget) = ["base/../x"] := by
  refine ⟨by decide, by decide, by decide, by decide⟩

/-! ## Claim C7 -/

/-- Claim C7 (counterexample): `sanitizeFileName` replaces each maximal *run*
of the unsafe characters with a single underscore, not each character with its
own underscore: `"a::b"` becomes `"a_b"`, not `"a__b"` as the claim states. -/
theorem sanitizeFileName_collapses_runs :
    sanitizeFileName "a::b" "x" = "a_b" ∧ sanitizeFileName "a::b" "x" ≠ "a__b" := by
  exact ⟨by decide, by decide⟩

/-- Claim C7 (amended): `sanitizeFileName` trims the name, replaces each
maximal run of `\ / : * ? " < > |` with a single `_`, and falls back to
`fallbackId + ".jpg"` when the result is empty; the result is always nonempty,
and contains none of those characters whenever `fallbackId` contains none. -/
theorem sanitizeFileName_spec (name fallbackId : String) :
    0 < (sanitizeFileName name fallbackId).length ∧
    ((∀ c ∈ fallbackId.data, isUnsafeChar c = false) →
      ∀ c ∈ (sanitizeFileName name fallbackId).data, isUnsafeChar c = false) ∧
    (collapseUnsafe false (jsTrim name.data) = [] →
      sanitizeFileName name fallbackId = fallbackId ++ ".jpg") := by
  refine ⟨?_, ?_, ?_⟩
  · have h := sanitizeFileNameL_ne_nil name.data fallbackId.data
    show 0 < (sanitizeFileNameL name.data fallbackId.data).length
    exact List.length_pos.mpr h
  · intro hfid c hc
    show isUnsafeChar c = false
    unfold sanitizeFileName at hc
    unfold sanitizeFileNameL at hc
    by_cases hn : collapseUnsafe false (jsTrim name.data) = []
    · rw [if_neg (by simpa using hn)] at hc
      rcases List.mem_append.mp hc with h | h
      · exact hfid c h
      · exact jpgExt_safe c h
    · rw [if_pos hn] at hc
      exact collapseUnsafe_safe (jsTrim name.data) false c hc
  · intro hn
    apply String.ext
    show sanitizeFileNameL name.data fallbackId.data = (fallbackId ++ ".jpg").data
    unfold sanitizeFileNameL
    rw [if_neg (by simpa using hn)]
    rfl

/-- Witness for the amended C7 theorem at concrete inputs. -/
theorem sanitizeFileName_spec_witness :
    (∀ c ∈ (sanitizeFileName "a//b" "x").data, isUnsafeChar c = false) ∧
    sanitizeFileName " " "x" = "x" ++ ".jpg" := by
  exact ⟨(sanitizeFileName_spec "a//b" "x").2.1 (by decide),
    (sanitizeFileName_spec " " "x").2.2 (by decide)⟩

/-! ## Claim C8 -/

/-- Claim C8 (confirmed): `addConflictSuffix` returns the name unchanged for
`attempt ≤ 0` and otherwise inserts `" (attempt)"` before the extension, where
name and extension recombine to the input, a nonempty extension starts at the
last dot and that dot is not the first character; including the three
concrete examples of the specification. -/
theorem addConflictSuffix_spec (fileName : String) (attempt : Int) :
    (attempt ≤ 0 → addConflictSuffix fileName attempt = fileName) ∧
    (0 < attempt →
      addConflictSuffix fileName attempt =
        (splitNameAndExt fileName).1 ++ " (" ++ toString attempt ++ ")" ++
          (splitNameAndExt fileName).2) ∧
    (splitNameAndExt fileName).1 ++ (splitNameAndExt fileName).2 = fileName ∧
    ((splitNameAndExt fileName).2 = "" ∨
      ((splitNameAndExt fileName).1 ≠ "" ∧
        (splitNameAndExt fileName).2.data.head? = some '.' ∧
        ∀ c ∈ (splitNameAndExt fileName).2.data.drop 1, c ≠ '.')) ∧
    ((splitNameAndExt fileName).2 = "" → ∀ j : Nat, 0 < j → fileName.data[j]? ≠ some '.') ∧
    addConflictSuffix "photo.jpg" 1 = "photo (1).jpg" ∧
    addConflictSuffix "noext" 2 = "noext (2)" ∧
    addConflictSuffix "photo.jpg" 0 = "photo.jpg" := by
  refine ⟨?_, ?_, ?_, ?_, ?_, by decide, by decide, by decide⟩
  · intro h
    apply String.ext
    show addConflictSuffixL fileName.data attempt = fileName.data
    unfold addConflictSuffixL
    rw [if_pos h]
  · intro h
    apply String.ext
    show addConflictSuffixL fileName.data attempt = _
    unfold addConflictSuffixL
    rw [if_neg (by omega)]
    show _ = ((((splitNameAndExtL fileName.data).1 ++ " (".data) ++ (toString attempt).data)
        ++ ")".data) ++ (splitNameAndExtL fileName.data).2
    simp [List.append_assoc]
  · apply String.ext
    show (splitNameAndExtL fileName.data).1 ++ (splitNameAndExtL fileName.data).2 = fileName.data
    exact splitNameAndExtL_append fileName.data
  · cases h : lastDotIdx fileName.data with
    | none =>
      left
      show String.mk (splitNameAndExtL fileName.data).2 = ""
      rw [splitNameAndExtL_eq_of_none fileName.data h]
    | some i =>
      by_cases hi : i = 0
      · left
        show String.mk (splitNameAndExtL fileName.data).2 = ""
        rw [splitNameAndExtL_eq_of_zero fileName.data (hi ▸ h)]
      · right
        have hp := splitNameAndExtL_eq_of_pos fileName.data i h hi
        obtain ⟨hdot, hlast⟩ := lastDotIdx_spec fileName.data i h
        have hilen : i < fileName.data.length := by
          by_contra hle
          rw [List.getElem?_eq_none (by omega)] at hdot
          exact absurd hdot (by simp)
        refine ⟨?_, ?_, ?_⟩
        · show String.mk (splitNameAndExtL fileName.data).1 ≠ ""
          rw [hp]
          intro hc
          have hdata : fileName.data.take i = [] := congrArg String.data hc
          have hlen := congrArg List.length hdata
          rw [List.length_take] at hlen
          simp only [List.length_nil] at hlen
          omega
        · show ((splitNameAndExtL fileName.data).2).head? = some '.'
          rw [hp]
          rw [List.head?_eq_getElem?, List.getElem?_drop]
          simpa using hdot
        · show ∀ c ∈ ((splitNameAndExtL fileName.data).2).drop 1, c ≠ '.'
          rw [hp]
          intro c hc hcdot
          subst hcdot
          rw [List.drop_drop] at hc
          rcases List.mem_iff_getElem?.mp hc with ⟨k, hk⟩
          rw [List.getElem?_drop] at hk
          exact hlast (i + 1 + k) (by omega) hk
  · intro hext j hj
    cases h : lastDotIdx fileName.data with
    | none => exact lastDotIdx_eq_none fileName.data h j
    | some i =>
      by_cases hi : i = 0
      · obtain ⟨-, hlast⟩ := lastDotIdx_spec fileName.data i h
        exact hlast j (by omega)
      · exfalso
        have hp := splitNameAndExtL_eq_of_pos fileName.data i h hi
        obtain ⟨hdot, -⟩ := lastDotIdx_spec fileName.data i h
        have hilen : i < fileName.data.length := by
          by_contra hle
          rw [List.getElem?_eq_none (by omega)] at hdot
          exact absurd hdot (by simp)
        have h2 : String.mk (splitNameAndExtL fileName.data).2 = "" := hext
        rw [hp] at h2
        have hdata : fileName.data.drop i = [] := congrArg String.data h2
        have hlen := congrArg List.length hdata
        rw [List.length_drop] at hlen
        simp only [List.length_nil] at hlen
        omega

/-! ## Claim C5 -/

/-- Sample values used to instantiate witnesses. -/
def sampleCandidate : UploadCandidate :=
  { kind := .camera, displayName := "a.jpg", localUri := "file:///a.jpg", size := 4,
    initialOffset := 0, remoteTarget := "", monthBucket := "2024-01",
    capturedAtIso := "2024-01-01T00:00:00.000Z", overwrite := false }

def probeAlways (r : ProbeResult) : Nat → ProbeResult := fun _ => r

/-- Claim C5 (confirmed): folder source with mirror mode and a configured
rename policy is coerced to effective policy overwrite, so the batch overwrite
flag is set and classification is independent of the rename-probe oracle; any
other combination keeps the configured policy. -/
theorem effectiveConflictPolicy_spec (s : SyncSource) (m : Bool) (p : SyncConflictPolicy)
    (c : UploadCandidate) (item : Option StatusItem) (pr1 pr2 : Nat → ProbeResult) :
    effectiveConflictPolicy .folder true .rename = .overwrite ∧
    overwriteUploads (effectiveConflictPolicy .folder true .rename) = true ∧
    (¬(s = .folder ∧ m = true ∧ p = .rename) → effectiveConflictPolicy s m p = p) ∧
    classifyStatusItem (effectiveConflictPolicy .folder true .rename) c item pr1 =
      classifyStatusItem (effectiveConflictPolicy .folder true .rename) c item pr2 := by
  refine ⟨rfl, rfl, ?_, ?_⟩
  · intro h
    unfold effectiveConflictPolicy
    rw [if_neg h]
  · cases item <;> rfl

/-- Witness for the C5 theorem at concrete inputs. -/
theorem effectiveConflictPolicy_spec_witness :
    effectiveConflictPolicy .camera false .skip = .skip :=
  (effectiveConflictPolicy_spec .camera false .skip sampleCandidate none
    (probeAlways (.fail "")) (probeAlways (.fail ""))).2.2.1 (by decide)

/-! ## Claim C9 -/

/-- Claim C9 (confirmed): in a folder-source mirror run, every discovered
file's remote target is in the local-target set (added during planning, before
status resolution), so the pruner's deletion set never contains it — whatever
the remote listing and regardless of how status resolution or upload of the
file later went, since the target set does not depend on those outcomes. -/
theorem mirror_never_deletes_discovered (files : List LocalFolderFile) (base : String)
    (remote : List String) (f : LocalFolderFile) (hf : f ∈ files) :
    joinUploadPath [base, f.relativePath] ∉
      mirrorDeleteSet remote (localMirrorTargets (buildFolderCandidates files base)) := by
  intro hmem
  rcases List.mem_filter.mp hmem with ⟨-, hdec⟩
  have hnot : joinUploadPath [base, f.relativePath] ∉
      localMirrorTargets (buildFolderCandidates files base) := of_decide_eq_true hdec
  apply hnot
  have hmap : localMirrorTargets (buildFolderCandidates files base)
      = files.map (fun file => joinUploadPath [base, file.relativePath]) := by
    simp [localMirrorTargets, buildFolderCandidates, List.map_map]
  rw [hmap]
  exact List.mem_map.mpr ⟨f, hf, rfl⟩

/-- Witness for the C9 theorem at concrete inputs. -/
theorem mirror_never_deletes_discovered_witness :
    joinUploadPath ["base", "x.txt"] ∉
      mirrorDeleteSet ["base/old.txt"]
        (localMirrorTargets (buildFolderCandidates [⟨"file:///u", "x.txt", "x.txt", 1⟩] "base")) :=
  mirror_never_deletes_discovered [⟨"file:///u", "x.txt", "x.txt", 1⟩] "base"
    ["base/old.txt"] ⟨"file:///u", "x.txt", "x.txt", 1⟩ (by decide)

/-! ## Claim C6 -/

/-- Specification-side matching rule, for comparison with
`normalizeBatchStatusItems`: the result assigned to slot `i` is the last
response entry whose explicit index field equals `i` — matching by index field
alone. -/
def specLastResultForIndex (i : Int) : List StatusItem → Option StatusItem
  | [] => none
  | e :: rest =>
    match specLastResultForIndex i rest with
    | some r => some r
    | none => if e.index = some i then some e else none

theorem statusFoldStep_length (n : Nat) (acc : List (Option StatusItem)) (e : StatusItem) :
    (statusFoldStep n acc e).length = acc.length := by
  unfold statusFoldStep
  cases he : e.index with
  | none => rfl
  | some j =>
    show (if 0 ≤ j ∧ j < (n : Int) then acc.set j.toNat (some e) else acc).length = acc.length
    by_cases hr : 0 ≤ j ∧ j < (n : Int)
    · rw [if_pos hr, List.length_set]
    · rw [if_neg hr]

theorem statusFold_length (l : List StatusItem) (n : Nat) (acc : List (Option StatusItem)) :
    (l.foldl (statusFoldStep n) acc).length = acc.length := by
  induction l generalizing acc with
  | nil => rfl
  | cons e rest ih =>
    rw [List.foldl_cons, ih, statusFoldStep_length]

theorem statusFold_getElem (l : List StatusItem) (n : Nat) (i : Nat) (hi : i < n) :
    ∀ acc : List (Option StatusItem), acc.length = n →
      (l.foldl (statusFoldStep n) acc)[i]? =
        (match specLastResultForIndex (i : Int) l with
          | some e => some (some e)
          | none => acc[i]?) := by
  induction l with
  | nil => intro acc hacc; rfl
  | cons e rest ih =>
    intro acc hacc
    rw [List.foldl_cons]
    rw [ih (statusFoldStep n acc e) (by rw [statusFoldStep_length]; exact hacc)]
    cases hr : specLastResultForIndex (i : Int) rest with
    | some r => simp only [specLastResultForIndex, hr]
    | none =>
      simp only [specLastResultForIndex, hr]
      by_cases he : e.index = some (i : Int)
      · rw [if_pos he]
        show (statusFoldStep n acc e)[i]? = some (some e)
        unfold statusFoldStep
        rw [he]
        have hcond : (0 ≤ (i : Int) ∧ (i : Int) < (n : Int)) :=
          ⟨Int.ofNat_nonneg i, by exact_mod_cast hi⟩
        show (if 0 ≤ (i : Int) ∧ (i : Int) < (n : Int)
            then acc.set ((i : Int)).toNat (some e) else acc)[i]? = some (some e)
        rw [if_pos hcond]
        have htn : ((i : Int)).toNat = i := by simp
        rw [htn]
        exact List.getElem?_set_self (by omega)
      · rw [if_neg he]
        show (statusFoldStep n acc e)[i]? = acc[i]?
        unfold statusFoldStep
        cases hei : e.index with
        | none => rfl
        | some j =>
          show (if 0 ≤ j ∧ j < (n : Int) then acc.set j.toNat (some e) else acc)[i]? = acc[i]?
          by_cases hr2 : 0 ≤ j ∧ j < (n : Int)
          · rw [if_pos hr2]
            apply List.getElem?_set_ne
            intro hji
            apply he
            rw [hei]
            have hj : j = (i : Int) := by omega
            rw [hj]
          · rw [if_neg hr2]

/-- Claim C6 (confirmed): the batch normalizer keeps exactly `expected` slots;
a non-array response leaves every slot empty; slot `i` holds precisely the
last result entry whose explicit in-range integer index field equals `i`
(so matching uses only the index field, and entries with a missing,
non-integer, or out-of-range index are discarded); and a candidate whose slot
is empty is classified failed. -/
theorem normalizeBatchStatusItems_spec (raw : Option (List StatusItem))
    (l : List StatusItem) (n : Nat) (i : Nat) (c : UploadCandidate)
    (p : SyncConflictPolicy) (probe : Nat → ProbeResult) (hi : i < n) :
    (normalizeBatchStatusItems raw n).length = n ∧
    normalizeBatchStatusItems none n = List.replicate n none ∧
    (normalizeBatchStatusItems (some l) n)[i]? = some (specLastResultForIndex (i : Int) l) ∧
    classifyStatusItem p c none probe = CandidateResolution.failed := by
  refine ⟨?_, rfl, ?_, rfl⟩
  · cases raw with
    | none => simp [normalizeBatchStatusItems]
    | some items =>
      show (items.foldl (statusFoldStep n) (List.replicate n none)).length = n
      rw [statusFold_length]
      simp
  · show (l.foldl (statusFoldStep n) (List.replicate n none))[i]? = _
    rw [statusFold_getElem l n i hi (List.replicate n none) (by simp)]
    cases h : specLastResultForIndex (i : Int) l with
    | some e => rfl
    | none => simp [List.getElem?_replicate, hi]

/-- Witness for the C6 theorem at concrete inputs: a response listing indexes
out of order (and one out-of-range index) is matched by index field. -/
theorem normalizeBatchStatusItems_spec_witness :
    (normalizeBatchStatusItems
        (some [⟨some 1, "ready", true, "", 0⟩, ⟨some 5, "ready", true, "", 0⟩,
          ⟨some 0, "exists", true, "", 0⟩]) 2)[0]? =
      some (specLastResultForIndex 0
        [⟨some 1, "ready", true, "", 0⟩, ⟨some 5, "ready", true, "", 0⟩,
          ⟨some 0, "exists", true, "", 0⟩]) :=
  (normalizeBatchStatusItems_spec
    (some [⟨some 1, "ready", true, "", 0⟩, ⟨some 5, "ready", true, "", 0⟩,
      ⟨some 0, "exists", true, "", 0⟩])
    [⟨some 1, "ready", true, "", 0⟩, ⟨some 5, "ready", true, "", 0⟩,
      ⟨some 0, "exists", true, "", 0⟩]
    2 0 sampleCandidate .skip (probeAlways (.fail "")) (by decide)).2.2.1

/-! ## Claim C1 -/

/-- Unfolding of `classifyStatusItem` on a present result. -/
theorem classifyStatusItem_some (p : SyncConflictPolicy) (c : UploadCandidate)
    (it : StatusItem) (probe : Nat → ProbeResult) :
    classifyStatusItem p c (some it) probe =
      (if statusItemUploadStatus it = "ready" then
        CandidateResolution.planned
          (addReadyCandidate c (statusItemOffset it) (overwriteUploads p)).1
          (addReadyCandidate c (statusItemOffset it) (overwriteUploads p)).2
      else if statusItemUploadStatus it = "complete" ∨ statusItemOffset it ≥ c.size then
        CandidateResolution.skipped
      else if statusItemUploadStatus it = "exists" then
        (match p with
          | .skip => CandidateResolution.skipped
          | .overwrite => CandidateResolution.failed
          | .rename =>
            match resolveRenameCandidate c probe with
            | .ready rc off =>
              CandidateResolution.planned (addReadyCandidate rc off false).1
                (addReadyCandidate rc off false).2
            | .skipped => CandidateResolution.skipped
            | .failed => CandidateResolution.failed)
      else CandidateResolution.failed) := rfl

/-- Claim C1 (counterexample): a result whose status string is `ready` but
whose reported offset equals the candidate's size is classified planned, never
skipped — the `ready` branch is tested before the `complete`-or-offset test,
so the classification is not independent of the reported status string. -/
theorem resolver_plans_ready_at_full_offset :
    statusItemOffset ⟨none, "ready", true, "", 4⟩ ≥ sampleCandidate.size ∧
    classifyStatusItem .skip sampleCandidate (some ⟨none, "ready", true, "", 4⟩)
        (probeAlways (.fail "")) =
      CandidateResolution.planned { sampleCandidate with initialOffset := 4 } 0 :=
  ⟨by decide, by decide⟩

/-- Claim C1 (amended): a result whose status string is not `ready` and which
reports `complete` or an offset ≥ the candidate's size is classified skipped,
never planned, under every conflict policy; a `ready` result however is always
planned, with its offset clamped into `[0, size]`, even when the reported
offset is ≥ size. -/
theorem resolver_skips_complete_or_full (p : SyncConflictPolicy) (c : UploadCandidate)
    (it : StatusItem) (probe : Nat → ProbeResult) :
    (statusItemUploadStatus it ≠ "ready" →
      (statusItemUploadStatus it = "complete" ∨ statusItemOffset it ≥ c.size) →
      classifyStatusItem p c (some it) probe = CandidateResolution.skipped) ∧
    (statusItemUploadStatus it = "ready" →
      classifyStatusItem p c (some it) probe =
        CandidateResolution.planned
          (addReadyCandidate c (statusItemOffset it) (overwriteUploads p)).1
          (addReadyCandidate c (statusItemOffset it) (overwriteUploads p)).2) := by
  constructor
  · intro hnr hco
    rw [classifyStatusItem_some, if_neg hnr, if_pos hco]
  · intro hr
    rw [classifyStatusItem_some, if_pos hr]

/-- Witness for the amended C1 theorem at a concrete input. -/
theorem resolver_skips_complete_or_full_witness :
    classifyStatusItem .rename sampleCandidate (some ⟨none, "complete", true, "", 0⟩)
        (probeAlways (.fail "")) = CandidateResolution.skipped :=
  (resolver_skips_complete_or_full .rename sampleCandidate ⟨none, "complete", true, "", 0⟩
    (probeAlways (.fail ""))).1 (by decide) (Or.inl (by decide))

/-- Witness for the C8 theorem at a concrete input. -/
theorem addConflictSuffix_spec_witness :
    addConflictSuffix "photo.jpg" (0 : Int) = "photo.jpg" ∧
    addConflictSuffix "photo.jpg" (1 : Int) =
      (splitNameAndExt "photo.jpg").1 ++ " (" ++ toString (1 : Int) ++ ")" ++
        (splitNameAndExt "photo.jpg").2 := by
  exact ⟨(addConflictSuffix_spec "photo.jpg" 0).1 (by decide),
    (addConflictSuffix_spec "photo.jpg" 1).2.1 (by decide)⟩

/-! ## Claim C3 -/

/-- `renameRemoteTargetL` unfolded. -/
theorem renameRemoteTargetL_eq (t : List Char) (a : Int) :
    renameRemoteTargetL t a =
      (if normalizeUploadPathL t = [] then normalizeUploadPathL t
      else
        if (splitOnChar '/' (normalizeUploadPathL t)).dropLast ≠ [] then
          joinWithChar '/' (splitOnChar '/' (normalizeUploadPathL t)).dropLast ++
            '/' :: addConflictSuffixL
              ((splitOnChar '/' (normalizeUploadPathL t)).getLast?.getD []) a
        else addConflictSuffixL
          ((splitOnChar '/' (normalizeUploadPathL t)).getLast?.getD []) a) := rfl

/-- Renaming a nonempty normalized remote target grows its length by the
suffix length, so the renamed target is never the original. -/
theorem renameRemoteTargetL_length (t : List Char) (a : Int)
    (hnorm : normalizeUploadPathL t = t) (hne : t ≠ []) (ha : ¬ a ≤ 0) :
    (renameRemoteTargetL t a).length = t.length + (toString a).data.length + 3 := by
  rw [renameRemoteTargetL_eq, hnorm, if_neg hne]
  set parts := splitOnChar '/' t with hparts
  have hpne : parts ≠ [] := hparts ▸ splitOnChar_ne_nil '/' t
  have hlastD : parts.getLast?.getD [] = parts.getLast hpne := by
    rw [List.getLast?_eq_getLast parts hpne]
    rfl
  have hsplit : parts.dropLast ++ [parts.getLast hpne] = parts :=
    List.dropLast_append_getLast hpne
  have ht : joinWithChar '/' parts = t := hparts ▸ joinWithChar_splitOnChar '/' t
  rw [← hsplit, joinWithChar_append_singleton] at ht
  by_cases hd : parts.dropLast = []
  · rw [if_pos hd] at ht
    rw [if_neg (by simp [hd]), hlastD, addConflictSuffixL_length _ a ha, ht]
  · rw [if_neg hd] at ht
    rw [if_pos hd, hlastD]
    have h1 := congrArg List.length ht
    rw [List.length_append, List.length_cons] at h1
    rw [List.length_append, List.length_cons, addConflictSuffixL_length _ a ha]
    omega

/-- The candidate's remote identity: the display name for camera candidates
(sent as the `file` field), the remote target for folder candidates. -/
def candidateName (c : UploadCandidate) : String :=
  match c.kind with
  | .camera => c.displayName
  | .folder => c.remoteTarget

theorem renameCandidateForAttempt_camera (c : UploadCandidate) (a : Int)
    (ha : ¬ a ≤ 0) (hk : c.kind = .camera) :
    renameCandidateForAttempt c a =
      { c with displayName := addConflictSuffix c.displayName a, overwrite := false } := by
  unfold renameCandidateForAttempt
  rw [if_neg ha, hk]

theorem renameCandidateForAttempt_folder (c : UploadCandidate) (a : Int)
    (ha : ¬ a ≤ 0) (hk : c.kind = .folder) :
    renameCandidateForAttempt c a =
      { c with remoteTarget := renameRemoteTarget c.remoteTarget a
               displayName := renameRemoteTarget c.remoteTarget a
               overwrite := false } := by
  unfold renameCandidateForAttempt
  rw [if_neg ha, hk]

/-- A rename attempt with a positive attempt number clears the overwrite flag,
keeps the kind, and changes the candidate's name (for folder candidates
provided the remote target is a nonempty normalized path). -/
theorem renameCandidateForAttempt_spec (c : UploadCandidate) (a : Int) (ha : ¬ a ≤ 0)
    (hfolder : c.kind = .folder →
      normalizeUploadPath c.remoteTarget = c.remoteTarget ∧ c.remoteTarget ≠ "") :
    (renameCandidateForAttempt c a).overwrite = false ∧
    (renameCandidateForAttempt c a).kind = c.kind ∧
    candidateName (renameCandidateForAttempt c a) ≠ candidateName c := by
  cases hk : c.kind with
  | camera =>
    rw [renameCandidateForAttempt_camera c a ha hk]
    refine ⟨rfl, hk, ?_⟩
    simp only [candidateName, hk]
    intro heq
    have hdata : addConflictSuffixL c.displayName.data a = c.displayName.data :=
      congrArg String.data heq
    have hlen := congrArg List.length hdata
    rw [addConflictSuffixL_length _ a ha] at hlen
    omega
  | folder =>
    obtain ⟨hnorm, hne⟩ := hfolder hk
    rw [renameCandidateForAttempt_folder c a ha hk]
    refine ⟨rfl, hk, ?_⟩
    simp only [candidateName, hk]
    intro heq
    have hnormL : normalizeUploadPathL c.remoteTarget.data = c.remoteTarget.data :=
      congrArg String.data hnorm
    have hneL : c.remoteTarget.data ≠ [] := fun h => hne (String.ext h)
    have hdata : renameRemoteTargetL c.remoteTarget.data a = c.remoteTarget.data :=
      congrArg String.data heq
    have hlen := congrArg List.length hdata
    rw [renameRemoteTargetL_length _ a hnormL hneL ha] at hlen
    omega

theorem candidateName_addReadyCandidate (c : UploadCandidate) (off : Int) (ow : Bool) :
    candidateName (addReadyCandidate c off ow).1 = candidateName c := rfl

/-- `resolveRenameFrom` unfolded one step. -/
theorem resolveRenameFrom_succ (c : UploadCandidate) (probe : Nat → ProbeResult)
    (fuel attempt : Nat) :
    resolveRenameFrom c probe (fuel + 1) attempt =
      (match probe attempt with
      | .fail code =>
        if code = "exists" then resolveRenameFrom c probe fuel (attempt + 1)
        else RenameOutcome.failed
      | .ok status offset0 =>
        if (if status ≠ "" then status else "ready") = "complete" ∨
            max 0 offset0 ≥ (renameCandidateForAttempt c (attempt : Int)).size then
          RenameOutcome.skipped
        else RenameOutcome.ready (renameCandidateForAttempt c (attempt : Int))
          (max 0 offset0)) := rfl

/-- A successful rename resolution always adopts some attempt's renamed
candidate, with an attempt number at least the starting one. -/
theorem resolveRenameFrom_ready (c : UploadCandidate) (probe : Nat → ProbeResult) :
    ∀ (fuel attempt : Nat) (rc : UploadCandidate) (off : Int),
      resolveRenameFrom c probe fuel attempt = .ready rc off →
      ∃ a : Nat, attempt ≤ a ∧ rc = renameCandidateForAttempt c (a : Int) := by
  intro fuel
  induction fuel with
  | zero =>
    intro attempt rc off h
    exact absurd h (by simp [resolveRenameFrom])
  | succ fuel ih =>
    intro attempt rc off h
    rw [resolveRenameFrom_succ] at h
    cases hp : probe attempt with
    | fail code =>
      rw [hp] at h
      have h2 : (if code = "exists" then resolveRenameFrom c probe fuel (attempt + 1)
          else RenameOutcome.failed) = RenameOutcome.ready rc off := h
      by_cases hcode : code = "exists"
      · rw [if_pos hcode] at h2
        obtain ⟨a, ha1, ha2⟩ := ih (attempt + 1) rc off h2
        exact ⟨a, by omega, ha2⟩
      · rw [if_neg hcode] at h2
        exact absurd h2 (by simp)
    | ok status offset0 =>
      rw [hp] at h
      have h2 : (if (if status ≠ "" then status else "ready") = "complete" ∨
            max 0 offset0 ≥ (renameCandidateForAttempt c (attempt : Int)).size then
            RenameOutcome.skipped
          else RenameOutcome.ready (renameCandidateForAttempt c (attempt : Int))
            (max 0 offset0)) = RenameOutcome.ready rc off := h
      by_cases hcond : (if status ≠ "" then status else "ready") = "complete" ∨
          max 0 offset0 ≥ (renameCandidateForAttempt c (attempt : Int)).size
      · rw [if_pos hcond] at h2
        exact absurd h2 (by simp)
      · rw [if_neg hcond] at h2
        refine ⟨attempt, le_refl attempt, ?_⟩
        cases h2
        rfl

/-- A concrete folder-kind candidate for counterexamples and witnesses. -/
def folderSample : UploadCandidate :=
  { kind := .folder, displayName := "b.txt", localUri := "file:///b.txt", size := 5,
    initialOffset := 0, remoteTarget := "a/b.txt", monthBucket := "", capturedAtIso := "",
    overwrite := false }

/-- Claim C3 (counterexample): under policy overwrite, a candidate whose
batch-status result is `exists` is classified failed, not planned with
overwrite=true — the `exists` branch only handles the skip and rename
policies and falls through to the failed counter for overwrite. -/
theorem overwrite_policy_fails_exists :
    statusItemUploadStatus ⟨none, "exists", true, "", 0⟩ = "exists" ∧
    statusItemOffset ⟨none, "exists", true, "", 0⟩ < sampleCandidate.size ∧
    classifyStatusItem .overwrite sampleCandidate (some ⟨none, "exists", true, "", 0⟩)
      (probeAlways (.fail "")) = CandidateResolution.failed :=
  ⟨by decide, by decide, by decide⟩

/-- Claim C3 (amended): a candidate whose batch-status result is `exists`
(with reported offset below its size) is counted skipped under policy skip,
failed under policy overwrite (the code does not plan it — an `exists`
response is unexpected there because the batch already carried overwrite=1),
and under policy rename is either skipped, or failed, or planned as a renamed
candidate with overwrite=false and never under its original name (for folder
candidates provided the remote target is a nonempty normalized path, which
`buildFolderCandidates` guarantees). -/
theorem conflict_policy_spec (c : UploadCandidate) (it : StatusItem)
    (probe : Nat → ProbeResult) (hex : statusItemUploadStatus it = "exists")
    (hoff : statusItemOffset it < c.size) :
    classifyStatusItem .skip c (some it) probe = CandidateResolution.skipped ∧
    classifyStatusItem .overwrite c (some it) probe = CandidateResolution.failed ∧
    ((c.kind = .folder →
        normalizeUploadPath c.remoteTarget = c.remoteTarget ∧ c.remoteTarget ≠ "") →
      classifyStatusItem .rename c (some it) probe = CandidateResolution.skipped ∨
      classifyStatusItem .rename c (some it) probe = CandidateResolution.failed ∨
      ∃ rc bytes, classifyStatusItem .rename c (some it) probe =
          CandidateResolution.planned rc bytes ∧
        rc.overwrite = false ∧ rc.kind = c.kind ∧ candidateName rc ≠ candidateName c) := by
  have hnready : statusItemUploadStatus it ≠ "ready" := by rw [hex]; decide
  have hncomplete : ¬(statusItemUploadStatus it = "complete" ∨ statusItemOffset it ≥ c.size) := by
    push_neg
    exact ⟨by rw [hex]; decide, by omega⟩
  refine ⟨?_, ?_, ?_⟩
  · rw [classifyStatusItem_some, if_neg hnready, if_neg hncomplete, if_pos hex]
  · rw [classifyStatusItem_some, if_neg hnready, if_neg hncomplete, if_pos hex]
  · intro hfolder
    rw [classifyStatusItem_some, if_neg hnready, if_neg hncomplete, if_pos hex]
    cases hr : resolveRenameCandidate c probe with
    | skipped => exact Or.inl rfl
    | failed => exact Or.inr (Or.inl rfl)
    | ready rc off =>
      refine Or.inr (Or.inr ⟨(addReadyCandidate rc off false).1,
        (addReadyCandidate rc off false).2, rfl, rfl, ?_, ?_⟩)
      all_goals {
        obtain ⟨a, ha1, ha2⟩ := resolveRenameFrom_ready c probe MAX_RENAME_ATTEMPTS 1 rc off hr
        have ha0 : ¬ (a : Int) ≤ 0 := by
          have : (1 : Int) ≤ (a : Int) := by exact_mod_cast ha1
          omega
        obtain ⟨how, hkind, hname⟩ := renameCandidateForAttempt_spec c (a : Int) ha0 hfolder
        subst ha2
        first
        | exact hkind
        | (rw [candidateName_addReadyCandidate]; exact hname)
      }

/-- Witness for the amended C3 theorem at concrete inputs. -/
theorem conflict_policy_spec_witness :
    classifyStatusItem .skip folderSample (some ⟨none, "exists", true, "", 0⟩)
        (probeAlways (.ok "" 0)) = CandidateResolution.skipped ∧
    (classifyStatusItem .rename folderSample (some ⟨none, "exists", true, "", 0⟩)
        (probeAlways (.ok "" 0)) = CandidateResolution.skipped ∨
      classifyStatusItem .rename folderSample (some ⟨none, "exists", true, "", 0⟩)
        (probeAlways (.ok "" 0)) = CandidateResolution.failed ∨
      ∃ rc bytes, classifyStatusItem .rename folderSample (some ⟨none, "exists", true, "", 0⟩)
          (probeAlways (.ok "" 0)) = CandidateResolution.planned rc bytes ∧
        rc.overwrite = false ∧ rc.kind = folderSample.kind ∧
        candidateName rc ≠ candidateName folderSample) :=
  ⟨(conflict_policy_spec folderSample ⟨none, "exists", true, "", 0⟩ (probeAlways (.ok "" 0))
      (by decide) (by decide)).1,
    (conflict_policy_spec folderSample ⟨none, "exists", true, "", 0⟩ (probeAlways (.ok "" 0))
      (by decide) (by decide)).2.2 (fun _ => ⟨by decide, by decide⟩)⟩

/-! ## Claims C2 and C4: chunk executor -/

/-- `uploadChunkStep` unfolded. -/
theorem uploadChunkStep_eq (size cb : Int) (reads : Int → Int → Nat) (resp : ChunkResp)
    (offset : Int) :
    uploadChunkStep size cb reads resp offset =
      (if reads offset (min cb (size - offset)) = 0 then ChunkStepResult.thrown
      else match resp with
        | .ok dataOffset =>
          ChunkStepResult.advanced
            (max (offset + (reads offset (min cb (size - offset)) : Int)) dataOffset)
        | .mismatch statusOk statusOffset =>
          if statusOk then
            if max 0 statusOffset ≤ offset then ChunkStepResult.thrown
            else ChunkStepResult.advanced (max 0 statusOffset)
          else ChunkStepResult.thrown
        | .errOther => ChunkStepResult.thrown) := rfl

/-- `uploadChunkLoopFrom` unfolded one step. -/
theorem uploadChunkLoopFrom_succ (size cb : Int) (reads : Int → Int → Nat)
    (resps : Nat → ChunkResp) (fuel : Nat) (offset : Int) (step : Nat) :
    uploadChunkLoopFrom size cb reads resps (fuel + 1) offset step =
      (if offset < size then
        match uploadChunkStep size cb reads (resps step) offset with
        | .advanced next => uploadChunkLoopFrom size cb reads resps fuel next (step + 1)
        | .thrown => UploadLoopResult.thrown
      else UploadLoopResult.done offset) := rfl

/-- Every advancing step strictly increases the offset, and a successful chunk
response advances it to `max(offset + bytesSent, serverOffset)` exactly. -/
theorem uploadChunkStep_advanced (size cb : Int) (reads : Int → Int → Nat)
    (resp : ChunkResp) (offset next : Int)
    (h : uploadChunkStep size cb reads resp offset = .advanced next) :
    offset < next ∧ ∀ d, resp = .ok d →
      next = max (offset + (reads offset (min cb (size - offset)) : Int)) d := by
  rw [uploadChunkStep_eq] at h
  by_cases hl : reads offset (min cb (size - offset)) = 0
  · rw [if_pos hl] at h
    exact absurd h (by simp)
  · rw [if_neg hl] at h
    cases resp with
    | ok d =>
      have h2 : ChunkStepResult.advanced
          (max (offset + (reads offset (min cb (size - offset)) : Int)) d)
          = ChunkStepResult.advanced next := h
      injection h2 with h3
      constructor
      · have h1 : (1 : Int) ≤ (reads offset (min cb (size - offset)) : Int) := by
          exact_mod_cast Nat.one_le_iff_ne_zero.mpr hl
        have h4 := le_max_left
          (offset + (reads offset (min cb (size - offset)) : Int)) d
        omega
      · intro d2 hd
        injection hd with hd2
        rw [← h3, hd2]
    | mismatch b so =>
      have h2 : (if b then
          (if max 0 so ≤ offset then ChunkStepResult.thrown
            else ChunkStepResult.advanced (max 0 so))
          else ChunkStepResult.thrown) = ChunkStepResult.advanced next := h
      cases b with
      | false => simp at h2
      | true =>
        simp only [if_true] at h2
        by_cases hso : max 0 so ≤ offset
        · rw [if_pos hso] at h2
          exact absurd h2 (by simp)
        · rw [if_neg hso] at h2
          injection h2 with h3
          exact ⟨by omega, fun d hd => by exact absurd hd (by simp)⟩
    | errOther => exact absurd h (by simp)

/-- A loop that exits normally has reached the candidate's size. -/
theorem uploadChunkLoop_done_ge (size cb : Int) (reads : Int → Int → Nat)
    (resps : Nat → ChunkResp) :
    ∀ (fuel : Nat) (offset : Int) (step : Nat) (f : Int),
      uploadChunkLoopFrom size cb reads resps fuel offset step = .done f → size ≤ f := by
  intro fuel
  induction fuel with
  | zero =>
    intro offset step f h
    exact absurd h (by simp [uploadChunkLoopFrom])
  | succ fuel ih =>
    intro offset step f h
    rw [uploadChunkLoopFrom_succ] at h
    by_cases ho : offset < size
    · rw [if_pos ho] at h
      cases hs : uploadChunkStep size cb reads (resps step) offset with
      | advanced next =>
        rw [hs] at h
        exact ih next (step + 1) f h
      | thrown =>
        rw [hs] at h
        simp at h
    · rw [if_neg ho] at h
      have h2 : UploadLoopResult.done offset = UploadLoopResult.done f := h
      injection h2 with h3
      omega

/-- With a read handle that yields at most the requested bytes and a server
that never reports an offset beyond the size, a loop that exits normally from
an in-range offset ends exactly at the size. -/
theorem uploadChunkLoop_done_eq (size cb : Int) (reads : Int → Int → Nat)
    (resps : Nat → ChunkResp) (hcb : 0 < cb)
    (hreads : ∀ o w : Int, 0 ≤ w → ((reads o w : Int) ≤ w))
    (hok : ∀ (n : Nat) (d : Int), resps n = .ok d → d ≤ size)
    (hmis : ∀ (n : Nat) (b : Bool) (so : Int), resps n = .mismatch b so → so ≤ size) :
    ∀ (fuel : Nat) (offset : Int) (step : Nat) (f : Int), 0 ≤ offset → offset ≤ size →
      uploadChunkLoopFrom size cb reads resps fuel offset step = .done f → f = size := by
  intro fuel
  induction fuel with
  | zero =>
    intro offset step f _ _ h
    exact absurd h (by simp [uploadChunkLoopFrom])
  | succ fuel ih =>
    intro offset step f h0 hle h
    rw [uploadChunkLoopFrom_succ] at h
    by_cases ho : offset < size
    · rw [if_pos ho] at h
      cases hs : uploadChunkStep size cb reads (resps step) offset with
      | thrown =>
        rw [hs] at h
        simp at h
      | advanced next =>
        rw [hs] at h
        obtain ⟨hlt, hchar⟩ := uploadChunkStep_advanced size cb reads (resps step) offset next hs
        have hnext : next ≤ size := by
          cases hr : resps step with
          | ok d =>
            have hch := hchar d hr
            have hd := hok step d hr
            have hw : (0 : Int) ≤ min cb (size - offset) :=
              le_min (le_of_lt hcb) (by omega)
            have hlen := hreads offset (min cb (size - offset)) hw
            have hmin : min cb (size - offset) ≤ size - offset := min_le_right _ _
            rw [hch]
            exact max_le (by omega) hd
          | mismatch b so =>
            rw [uploadChunkStep_eq, hr] at hs
            by_cases hl : reads offset (min cb (size - offset)) = 0
            · rw [if_pos hl] at hs
              simp at hs
            · rw [if_neg hl] at hs
              have hs2 : (if b then
                  (if max 0 so ≤ offset then ChunkStepResult.thrown
                    else ChunkStepResult.advanced (max 0 so))
                  else ChunkStepResult.thrown) = ChunkStepResult.advanced next := hs
              cases b with
              | false => simp at hs2
              | true =>
                simp only [if_true] at hs2
                by_cases hso : max 0 so ≤ offset
                · rw [if_pos hso] at hs2
                  simp at hs2
                · rw [if_neg hso] at hs2
                  injection hs2 with hs3
                  have hsos := hmis step true so hr
                  omega
          | errOther =>
            rw [uploadChunkStep_eq, hr] at hs
            by_cases hl : reads offset (min cb (size - offset)) = 0
            · rw [if_pos hl] at hs
              simp at hs
            · rw [if_neg hl] at hs
              simp at hs
        exact ih next (step + 1) f (by omega) hnext h
    · rw [if_neg ho] at h
      have h2 : UploadLoopResult.done offset = UploadLoopResult.done f := h
      injection h2 with h3
      omega

/-- The read oracle of a well-sized local file: `readBytes` yields exactly the
requested count (clamped to a nonnegative number). -/
def fullReads : Int → Int → Nat := fun _ want => want.toNat

/-- Claim C4 (counterexample): with every chunk response successful, a server
that reports an offset beyond the candidate's size makes the executor's final
local offset exceed the size — the final offset is not exactly `size`. -/
theorem final_offset_can_exceed_size :
    uploadChunkLoopFrom 2 2 fullReads (fun _ => ChunkResp.ok 5) 2 0 0 =
      UploadLoopResult.done 5 ∧ (5 : Int) ≠ 2 :=
  ⟨by decide, by decide⟩

/-- Claim C4 (amended): every advancing step strictly increases the local
offset, a successful chunk response sets it to `max(offset + bytesSent,
serverOffset)` exactly (the mismatch-recovery path requires a strictly greater
server offset); a normally completed upload ends with final offset ≥ size, and
exactly = size provided reads return at most the requested bytes and every
server-reported offset is at most the candidate's size. -/
theorem chunk_offset_monotonic (size cb : Int) (reads : Int → Int → Nat)
    (resps : Nat → ChunkResp) :
    (∀ (resp : ChunkResp) (offset next : Int),
      uploadChunkStep size cb reads resp offset = .advanced next →
      offset < next ∧ ∀ d, resp = .ok d →
        next = max (offset + (reads offset (min cb (size - offset)) : Int)) d) ∧
    (∀ (fuel : Nat) (offset : Int) (step : Nat) (f : Int),
      uploadChunkLoopFrom size cb reads resps fuel offset step = .done f → size ≤ f) ∧
    (0 < cb → (∀ o w : Int, 0 ≤ w → ((reads o w : Int) ≤ w)) →
      (∀ (n : Nat) (d : Int), resps n = .ok d → d ≤ size) →
      (∀ (n : Nat) (b : Bool) (so : Int), resps n = .mismatch b so → so ≤ size) →
      ∀ (fuel : Nat) (offset : Int) (step : Nat) (f : Int), 0 ≤ offset → offset ≤ size →
        uploadChunkLoopFrom size cb reads resps fuel offset step = .done f → f = size) :=
  ⟨fun resp => uploadChunkStep_advanced size cb reads resp,
    uploadChunkLoop_done_ge size cb reads resps,
    fun hcb hr hok hmis => uploadChunkLoop_done_eq size cb reads resps hcb hr hok hmis⟩

/-- Witness for the amended C4 theorem at concrete inputs. -/
theorem chunk_offset_monotonic_witness :
    (2 : Int) ≤ 2 ∧
    ∃ f : Int, uploadChunkLoopFrom 2 2 fullReads (fun _ => ChunkResp.ok 0) 2 0 0 =
      UploadLoopResult.done f ∧ f = 2 := by
  refine ⟨(chunk_offset_monotonic 2 2 fullReads (fun _ => ChunkResp.ok 0)).2.1 2 0 0 2 rfl,
    2, rfl, ?_⟩
  exact (chunk_offset_monotonic 2 2 fullReads (fun _ => ChunkResp.ok 0)).2.2 (by decide)
    (fun o w hw => by simp [fullReads, Int.toNat_of_nonneg hw])
    (fun n d hd => by injection hd with h; omega)
    (fun n b so h => nomatch h)
    2 0 0 2 (by decide) (by decide) rfl

/-- A run whose first chunk response is a non-mismatch error. -/
def failingRun : CandidateRun := ⟨folderSample, fullReads, fun _ => ChunkResp.errOther⟩

/-- A run whose chunk responses all succeed. -/
def succeedingRun : CandidateRun := ⟨folderSample, fullReads, fun _ => ChunkResp.ok 0⟩

/-- Claim C2 (counterexample): a chunk failure on the first candidate ends the
whole run in the error stage with the failed counter untouched and the second
candidate never processed — not `failed+1` with the run continuing, which
would have produced `finished` with one upload and one failure. -/
theorem chunk_error_aborts_run_counterexample :
    runUploadStage 2 10 [failingRun, succeedingRun] 0 0 = UploadStageResult.errored 0 0 ∧
    UploadStageResult.errored 0 0 ≠ UploadStageResult.finished 1 1 :=
  ⟨by decide, by decide⟩

/-- Claim C2 (amended): a chunk error other than a resolvable offset mismatch
throws: the chunk loop ends `thrown`, and a thrown candidate upload terminates
the whole upload stage in the error stage with the uploaded and failed
counters exactly as they stood — the failed counter is not incremented and the
remaining candidates are not processed. -/
theorem chunk_error_aborts_run (cb : Int) (fuel : Nat) (r : CandidateRun)
    (rest : List CandidateRun) (uploaded failed : Nat) :
    (∀ (size : Int) (reads : Int → Int → Nat) (resps : Nat → ChunkResp)
        (offset : Int) (step : Nat),
      offset < size → reads offset (min cb (size - offset)) ≠ 0 →
      resps step = ChunkResp.errOther →
      uploadChunkLoopFrom size cb reads resps (fuel + 1) offset step =
        UploadLoopResult.thrown) ∧
    (runCandidateUpload cb r.candidate r.reads r.resps fuel = .thrown →
      runUploadStage cb fuel (r :: rest) uploaded failed =
        UploadStageResult.errored uploaded failed) := by
  constructor
  · intro size reads resps offset step ho hl hr
    rw [uploadChunkLoopFrom_succ, if_pos ho, uploadChunkStep_eq, hr, if_neg hl]
  · intro h
    show (match runCandidateUpload cb r.candidate r.reads r.resps fuel with
      | .done finalOffset =>
        runUploadStage cb fuel rest
          (if finalOffset ≥ r.candidate.size then uploaded + 1 else uploaded) failed
      | .thrown => UploadStageResult.errored uploaded failed
      | .fuelOut => UploadStageResult.fuelOut) = UploadStageResult.errored uploaded failed
    rw [h]

/-- Witness for the amended C2 theorem at concrete inputs. -/
theorem chunk_error_aborts_run_witness :
    uploadChunkLoopFrom 5 2 fullReads (fun _ => ChunkResp.errOther) 10 0 0 =
      UploadLoopResult.thrown ∧
    runUploadStage 2 9 [failingRun] 3 4 = UploadStageResult.errored 3 4 :=
  ⟨(chunk_error_aborts_run 2 9 failingRun [] 3 4).1 5 fullReads
      (fun _ => ChunkResp.errOther) 0 0 (by decide) (by decide) rfl,
    (chunk_error_aborts_run 2 9 failingRun [] 3 4).2 (by decide)⟩

end NNCSync
